import Mathlib

/-!
Verification development for the `logingest` repository: a shallow
embedding of its scheduler core (`src/scheduler/scheduler.py`), scheduler
service (`src/scheduler/scheduler_service.py`), log-entry model
(`src/models/log_entry.py`), database transaction wrapper
(`src/database/connection.py`) and the JSONPlaceholder connector
(`src/services/api_services/json_placeholder_service.py`), together with
theorems settling the behavioural claims about them.

Conventions of the embedding:
- timestamps are `Nat` (an abstract UTC instant);
- Python dicts keyed by strings are association lists `List (String × α)`
  with dict-assignment semantics (in-place replace, append when new);
- a Python function that can raise is embedded as a function returning the
  post-state together with `Option Err` (the state reached at the raise
  point is kept, mirroring partial mutation before an exception);
- third-party collaborators (APScheduler triggers, `json.dumps`, psycopg2
  transactions) are modelled explicitly where their behaviour is
  observable through the repository code.
-/

namespace LogIngest

/-! ### JSON values

Model of the JSON payloads the connector receives from `response.json()`
and of Python `json.dumps` applied to them (`src/models/log_entry.py`
serializes `raw_data` with `json.dumps`). -/

/-- A JSON value: object, array, string, integer number, boolean or null.
(Numbers are restricted to integers; the fractional case plays no role in
any claim.) -/
inductive Json where
  | null : Json
  | bool : Bool → Json
  | num : Int → Json
  | str : String → Json
  | arr : List Json → Json
  | obj : List (String × Json) → Json

/-- Escaping of the characters of a string as `json.dumps` does for the
quote and backslash (control-character escapes are omitted; they play no
role in any claim). -/
def jsonEscapeChars : List Char → List Char
  | [] => []
  | c :: cs =>
    (if c = '"' then ['\\', '"'] else if c = '\\' then ['\\', '\\'] else [c]) ++
      jsonEscapeChars cs

/-- Escaping of a whole string for inclusion in a JSON document. -/
def jsonEscape (s : String) : String :=
  String.mk (jsonEscapeChars s.data)

/-- The decimal digits of a natural number, most significant first,
accumulated onto `acc` (the standard division-remainder loop; models how
Python prints an `int`). -/
def natDigitsGo : Nat → List Char → List Char
  | 0, acc => acc
  | n + 1, acc =>
    natDigitsGo ((n + 1) / 10) (Char.ofNat (48 + (n + 1) % 10) :: acc)
decreasing_by exact Nat.div_lt_self (Nat.succ_pos n) (by omega)

/-- The decimal representation of a natural number. -/
def natRepr (n : Nat) : String :=
  if n = 0 then "0" else String.mk (natDigitsGo n [])

/-- The decimal representation of an integer (a `-` sign then the digits),
as Python prints an `int`. -/
def intRepr (n : Int) : String :=
  if n < 0 then "-" ++ natRepr n.natAbs else natRepr n.toNat

mutual

/-- Model of Python `json.dumps` with default separators: the serialized
text of a JSON value. -/
def Json.serialize : Json → String
  | .null => "null"
  | .bool true => "true"
  | .bool false => "false"
  | .num n => intRepr n
  | .str s => "\"" ++ jsonEscape s ++ "\""
  | .arr xs => "[" ++ serializeItems xs ++ "]"
  | .obj kvs => "\x7b" ++ serializeFields kvs ++ "\x7d"

/-- Comma-separated serialization of the elements of a JSON array. -/
def serializeItems : List Json → String
  | [] => ""
  | [x] => Json.serialize x
  | x :: xs => Json.serialize x ++ ", " ++ serializeItems xs

/-- Comma-separated serialization of the key/value pairs of a JSON object. -/
def serializeFields : List (String × Json) → String
  | [] => ""
  | [kv] => "\"" ++ jsonEscape kv.1 ++ "\": " ++ Json.serialize kv.2
  | kv :: kvs =>
    "\"" ++ jsonEscape kv.1 ++ "\": " ++ Json.serialize kv.2 ++ ", " ++ serializeFields kvs

end

/-! ### JSON well-formedness

The spec calls a string a "well-formed serialized JSON value" when it is
the serialized text of some JSON document.  We decide this with a small
recursive-descent parser (whitespace-tolerant; escape sequences in strings
are accepted without interpreting them, which does not affect
well-formedness). -/

/-- Skip leading JSON whitespace. -/
def skipWs : List Char → List Char
  | [] => []
  | c :: cs => if c.isWhitespace then skipWs cs else c :: cs

/-- Expect the exact literal `lit` as a prefix; on success yield `j`. -/
def parseLit (lit : List Char) (j : Json) (cs : List Char) : Option (Json × List Char) :=
  if cs.take lit.length = lit then some (j, cs.drop lit.length) else none

/-- Parse a non-empty run of decimal digits. -/
def parseNumTail (cs : List Char) : Option (Nat × List Char) :=
  let digs := cs.takeWhile Char.isDigit
  if digs.isEmpty then none
  else some (digs.foldl (fun acc c => acc * 10 + (c.toNat - 48)) 0, cs.dropWhile Char.isDigit)

/-- Parse the body of a JSON string after the opening quote, up to and
including the closing quote. -/
def parseStringBody : List Char → Option (String × List Char)
  | [] => none
  | c :: cs =>
    if c = '"' then some ("", cs)
    else if c = '\\' then
      match cs with
      | [] => none
      | e :: cs2 => (parseStringBody cs2).map fun p => (String.singleton e ++ p.1, p.2)
    else (parseStringBody cs).map fun p => (String.singleton c ++ p.1, p.2)

mutual

/-- Fuel-indexed parser for one JSON value. -/
def parseValue : Nat → List Char → Option (Json × List Char)
  | 0, _ => none
  | Nat.succ fuel, cs =>
    match skipWs cs with
    | [] => none
    | c :: cs1 =>
      if c = 'n' then parseLit ['u', 'l', 'l'] Json.null cs1
      else if c = 't' then parseLit ['r', 'u', 'e'] (Json.bool true) cs1
      else if c = 'f' then parseLit ['a', 'l', 's', 'e'] (Json.bool false) cs1
      else if c = '"' then (parseStringBody cs1).map fun p => (Json.str p.1, p.2)
      else if c = '-' then (parseNumTail cs1).map fun p => (Json.num (-(p.1 : Int)), p.2)
      else if c.isDigit then (parseNumTail (c :: cs1)).map fun p => (Json.num (p.1 : Int), p.2)
      else if c = '[' then
        match skipWs cs1 with
        | [] => none
        | d :: ds =>
          if d = ']' then some (Json.arr [], ds)
          else (parseItems fuel cs1).map fun p => (Json.arr p.1, p.2)
      else if c = '\x7b' then
        match skipWs cs1 with
        | [] => none
        | d :: ds =>
          if d = '\x7d' then some (Json.obj [], ds)
          else (parseFields fuel cs1).map fun p => (Json.obj p.1, p.2)
      else none

/-- Fuel-indexed parser for the comma-separated elements of a non-empty
array, up to and including the closing bracket. -/
def parseItems : Nat → List Char → Option (List Json × List Char)
  | 0, _ => none
  | Nat.succ fuel, cs =>
    match parseValue fuel cs with
    | none => none
    | some (j, rest) =>
      match skipWs rest with
      | [] => none
      | d :: rest2 =>
        if d = ',' then (parseItems fuel rest2).map fun p => (j :: p.1, p.2)
        else if d = ']' then some ([j], rest2)
        else none

/-- Fuel-indexed parser for the comma-separated members of a non-empty
object, up to and including the closing brace. -/
def parseFields : Nat → List Char → Option (List (String × Json) × List Char)
  | 0, _ => none
  | Nat.succ fuel, cs =>
    match skipWs cs with
    | [] => none
    | q :: cs1 =>
      if q = '"' then
        match parseStringBody cs1 with
        | none => none
        | some (k, rest) =>
          match skipWs rest with
          | [] => none
          | col :: rest2 =>
            if col = ':' then
              match parseValue fuel rest2 with
              | none => none
              | some (v, rest3) =>
                match skipWs rest3 with
                | [] => none
                | d :: rest4 =>
                  if d = ',' then (parseFields fuel rest4).map fun p => ((k, v) :: p.1, p.2)
                  else if d = '\x7d' then some ([(k, v)], rest4)
                  else none
            else none
      else none

end

mutual

/-- A structural size for JSON values, measuring nesting: the parser
consumes at most this much fuel on the serialization of a value. -/
def jsize : Json → Nat
  | .null => 1
  | .bool _ => 1
  | .num _ => 1
  | .str _ => 1
  | .arr xs => 1 + jsizeList xs
  | .obj kvs => 1 + jsizeFields kvs

/-- Size of the elements of an array. -/
def jsizeList : List Json → Nat
  | [] => 0
  | x :: xs => 1 + jsize x + jsizeList xs

/-- Size of the members of an object. -/
def jsizeFields : List (String × Json) → Nat
  | [] => 0
  | kv :: kvs => 1 + jsize kv.2 + jsizeFields kvs

end

/-- Parse a whole string as one JSON document. -/
def parseJson (s : String) : Option Json :=
  match parseValue (s.length + 1) s.data with
  | some (j, rest) => if skipWs rest = [] then some j else none
  | none => none

/-- A string is a well-formed serialized JSON value when it parses as one
JSON document. -/
def wellFormedJson (s : String) : Bool := (parseJson s).isSome

/-! ### The log-entry model (`src/models/log_entry.py`)

`LogEntry.__init__` normalizes `raw_data` (a dict is `json.dumps`-ed, a
string is stored verbatim, anything else is `json.dumps`-ed) and defaults
`timestamp` to `datetime.utcnow()`; `to_dict` re-exposes every field. -/

/-- The `raw_data` normalization of `LogEntry.__init__`:
`if isinstance(raw_data, dict): json.dumps(raw_data)`
`elif isinstance(raw_data, str): raw_data`
`else: json.dumps(raw_data)`. -/
def rawDataOf : Json → String
  | .obj kvs => Json.serialize (.obj kvs)
  | .str s => s
  | j => Json.serialize j

/-- A constructed `LogEntry` (every field set, as after `__init__`). -/
structure LogEntry where
  source : String
  product : String
  eventType : String
  severity : String
  rawData : String
  timestamp : Nat

/-- `LogEntry.__init__`: `now` is the `datetime.utcnow()` observed during
construction, `timestamp` the optional caller-supplied instant
(`self.timestamp = timestamp or datetime.utcnow()`). -/
def mkLogEntry (source product eventType : String) (payload : Json)
    (severity : String) (timestamp : Option Nat) (now : Nat) : LogEntry :=
  { source := source
    product := product
    eventType := eventType
    severity := severity
    rawData := rawDataOf payload
    timestamp := timestamp.getD now }

/-- A row-shaped dict as consumed by `_store_logs` (`log['source']`, ...).
A `none` field models a missing key or a null value: reading it raises
(`KeyError`) or violates the table's NOT NULL constraint. -/
structure LogRecord where
  source : Option String
  product : Option String
  eventType : Option String
  severity : Option String
  timestamp : Option Nat
  rawData : Option String

/-- `LogEntry.to_dict`: every field of a constructed entry is present. -/
def LogEntry.toRecord (e : LogEntry) : LogRecord :=
  { source := some e.source
    product := some e.product
    eventType := some e.eventType
    severity := some e.severity
    timestamp := some e.timestamp
    rawData := some e.rawData }

/-! ### Cron expressions

`Scheduler.add_job` splits the schedule string itself and then hands the
five fields to APScheduler's `CronTrigger`.  The trigger's field grammar is
a third-party collaborator; it is modelled here after the spec's
description of a valid cron field: "digit, `*`, ranges, steps, lists". -/

/-- Split a character list at every occurrence of `sep`, keeping empty
pieces, like Python `s.split(sep)`. -/
def splitOnChar (sep : Char) : List Char → List (List Char)
  | [] => [[]]
  | c :: cs =>
    if c = sep then [] :: splitOnChar sep cs
    else
      match splitOnChar sep cs with
      | [] => [[c]]
      | p :: ps => (c :: p) :: ps

/-- The whitespace-separated words of a character list (Python
`s.split()` with no argument: runs of whitespace separate, no empty
pieces); `acc` holds the characters of the current word, reversed. -/
def wordsGo : List Char → List Char → List String
  | acc, [] => if acc.isEmpty then [] else [String.mk acc.reverse]
  | acc, c :: cs =>
    if c.isWhitespace then
      if acc.isEmpty then wordsGo [] cs
      else String.mk acc.reverse :: wordsGo [] cs
    else wordsGo (c :: acc) cs

/-- A non-empty all-digit piece. -/
def isNumChars (cs : List Char) : Bool := !cs.isEmpty && cs.all Char.isDigit

/-- A cron atom: `*`, a number, or a range `a-b`. -/
def cronAtomValid (cs : List Char) : Bool :=
  cs == ['*'] || isNumChars cs ||
    (match splitOnChar '-' cs with
     | [a, b] => isNumChars a && isNumChars b
     | _ => false)

/-- A cron item: an atom with an optional `/step` suffix. -/
def cronItemValid (cs : List Char) : Bool :=
  match splitOnChar '/' cs with
  | [a] => cronAtomValid a
  | [a, st] => cronAtomValid a && isNumChars st
  | _ => false

/-- A cron field: a comma-separated list of items. -/
def cronFieldValid (s : String) : Bool :=
  (splitOnChar ',' s.data).all cronItemValid

/-- `schedule.split()`: split on whitespace, dropping empty pieces. -/
def cronParts (schedule : String) : List String :=
  wordsGo [] schedule.data

/-- A well-formed cron expression: exactly five whitespace-separated
fields, each a valid cron field. -/
def validCron (schedule : String) : Bool :=
  (cronParts schedule).length == 5 && (cronParts schedule).all cronFieldValid

/-! ### Errors -/

/-- Errors observable through the embedded code paths. -/
inductive Err where
  /-- Python `ValueError` (raised by `add_job`'s field-count check and by
  APScheduler's `CronTrigger` on a bad field, and by `ServiceFactory`). -/
  | valueError (msg : String)
  /-- Modelled from the spec: the `InvalidScheduleError` of the spec's
  error taxonomy (§7).  The repository code never defines or raises this
  error; the constructor exists so claims naming it can be stated. -/
  | invalidScheduleError (msg : String)
  /-- Python `KeyError` on a missing dict key. -/
  | keyError (k : String)
  /-- A database failure during insert. -/
  | storeError (msg : String)
  deriving Repr, DecidableEq

/-- Whether an error is the spec's `InvalidScheduleError`. -/
def Err.isInvalidSchedule : Err → Bool
  | .invalidScheduleError _ => true
  | _ => false

/-! ### String-keyed dicts -/

/-- Python dict assignment `m[k] = v`: replace in place, append when new. -/
def dictSet (m : List (String × α)) (k : String) (v : α) : List (String × α) :=
  match m with
  | [] => [(k, v)]
  | (k1, v1) :: rest => if k1 == k then (k, v) :: rest else (k1, v1) :: dictSet rest k v

/-- Whether the dict has an entry for `k`. -/
def dictHas (m : List (String × α)) (k : String) : Bool :=
  (List.lookup k m).isSome

/-! ### The scheduler core (`src/scheduler/scheduler.py`) -/

/-- Log output of the scheduler paths. -/
inductive LogLine where
  | info (msg : String)
  | warn (msg : String)
  | error (msg : String)
  deriving Repr, DecidableEq

/-- The `scheduler` section of the configuration
(`config.get('scheduler', \x7b\x7d)` with defaults `'UTC'` and `3`). -/
structure SchedulerConfig where
  timezone : String
  maxParallelJobs : Nat

/-- The defaults applied when the configuration has no `scheduler` section. -/
def defaultSchedulerConfig : SchedulerConfig :=
  { timezone := "UTC", maxParallelJobs := 3 }

/-- A job as held by APScheduler's job store: its trigger expression, the
effective `max_instances` (taken from the scheduler's `job_defaults`, since
`add_job` never passes one per job), and `next_run_time` (absent while the
job is pending, i.e. added before the scheduler was started). -/
structure StoredJob where
  schedule : String
  maxInstances : Nat
  nextRunTime : Option Nat

/-- The per-job config subset read back by `get_job_status`
(`config.get('name', job_id)`, `config.get('enabled', True)`). -/
structure JobConfig where
  name : Option String
  enabled : Bool

/-- One entry of the scheduler's `_jobs` bookkeeping dict. -/
structure JobInfo where
  schedule : String
  cfg : JobConfig
  lastRun : Option Nat
  runCount : Nat
  errorCount : Nat

/-- The state of a `Scheduler` instance: `_jobs` (insertion-ordered dict),
the APScheduler job store, `_running`, and the configured knobs. -/
structure SchedState where
  maxParallelJobs : Nat
  jobDefaultMaxInstances : Nat
  schedJobs : List (String × StoredJob)
  jobs : List (String × JobInfo)
  running : Bool

/-- `Scheduler.__init__`: reads `max_parallel_jobs` (default 3) and sets
`job_defaults['max_instances']` to that same value; no jobs, not running. -/
def initScheduler (cfg : SchedulerConfig) : SchedState :=
  { maxParallelJobs := cfg.maxParallelJobs
    jobDefaultMaxInstances := cfg.maxParallelJobs
    schedJobs := []
    jobs := []
    running := false }

/-- `Scheduler.add_job`.  Mirrors the source's order: field-count check,
`CronTrigger` construction, `scheduler.add_job` (with
`replace_existing=True`), then the `_jobs` bookkeeping entry.  On an
exception the state reached so far is returned with the error (both raise
points precede every mutation).  `nf` abstracts the library's computation
of a trigger's next fire time; a job added while the scheduler is stopped
is pending and has no `next_run_time` yet. -/
def Scheduler.addJob (nf : String → Nat) (s : SchedState) (jobId schedule : String)
    (jc : JobConfig) : SchedState × Option Err :=
  let parts := cronParts schedule
  if parts.length == 5 then
    if parts.all cronFieldValid then
      let stored : StoredJob :=
        { schedule := schedule
          maxInstances := s.jobDefaultMaxInstances
          nextRunTime := if s.running then some (nf schedule) else none }
      let info : JobInfo :=
        { schedule := schedule, cfg := jc, lastRun := none, runCount := 0, errorCount := 0 }
      ({ s with
          schedJobs := dictSet s.schedJobs jobId stored
          jobs := dictSet s.jobs jobId info }, none)
    else
      (s, some (Err.valueError "Unrecognized expression for cron field"))
  else
    (s, some (Err.valueError ("Invalid cron expression: " ++ schedule)))

/-- The status dict returned by `Scheduler.get_job_status`. -/
structure JobStatus where
  id : String
  name : String
  schedule : String
  lastRun : Option Nat
  nextRun : Option Nat
  runCount : Nat
  errorCount : Nat
  enabled : Bool

/-- `Scheduler.get_job_status`: `None` for an unknown id; otherwise the
bookkeeping fields plus `next_run` read from the scheduler's job object
(reading `next_run_time` of a still-pending job raises and is swallowed,
leaving `next_run = None`). -/
def Scheduler.getJobStatus (s : SchedState) (jobId : String) : Option JobStatus :=
  match List.lookup jobId s.jobs with
  | none => none
  | some info =>
    let nextRun : Option Nat :=
      match List.lookup jobId s.schedJobs with
      | some stored => stored.nextRunTime
      | none => none
    some { id := jobId
           name := info.cfg.name.getD jobId
           schedule := info.schedule
           lastRun := info.lastRun
           nextRun := nextRun
           runCount := info.runCount
           errorCount := info.errorCount
           enabled := info.cfg.enabled }

/-- `Scheduler.start`: warn and return unchanged when already running;
otherwise start the underlying scheduler (which computes `next_run_time`
for every pending job) and set `_running`. -/
def Scheduler.start (nf : String → Nat) (s : SchedState) : SchedState × List LogLine :=
  if s.running then
    (s, [LogLine.warn "Scheduler is already running"])
  else
    ({ s with
        running := true
        schedJobs := s.schedJobs.map fun kv =>
          (kv.1, { kv.2 with nextRunTime := some (nf kv.2.schedule) }) },
     [LogLine.info "Scheduler started successfully"])

/-- Outcome of one execution of a job's function. -/
inductive RunResult where
  | success
  | failure
  deriving Repr, DecidableEq

/-- One APScheduler fire of job `jobId`: the executor runs the job's
function (with outcome `r`), logs success or the raised exception, and the
trigger advances `next_run_time` to the following fire.  `scheduler.py`
registers no event listener and wraps `func` in nothing, so an execution
never touches the `_jobs` bookkeeping dict (`last_run`, `run_count`,
`error_count`), whatever `r` is. -/
def Scheduler.fireJob (nf : String → Nat) (s : SchedState) (jobId : String)
    (r : RunResult) : SchedState :=
  match r, List.lookup jobId s.schedJobs with
  | _, none => s
  | _, some stored =>
    { s with
        schedJobs := dictSet s.schedJobs jobId
          { stored with nextRunTime := some (nf stored.schedule) } }

/-- A sequence of fires, applied in order. -/
def Scheduler.fireSeq (nf : String → Nat) (s : SchedState)
    (fires : List (String × RunResult)) : SchedState :=
  fires.foldl (fun acc p => Scheduler.fireJob nf acc p.1 p.2) s

/-- The run statistics of a job as `get_job_status` would report them:
`(last_run, run_count, error_count)`. -/
def Scheduler.statsOf (s : SchedState) (jobId : String) :
    Option (Option Nat × Nat × Nat) :=
  (List.lookup jobId s.jobs).map fun i => (i.lastRun, i.runCount, i.errorCount)

/-! ### The log store (`_store_logs` over `DatabaseConnection.get_cursor`)

`get_cursor` yields a cursor on the shared connection, commits after the
`with` body finishes, and on any exception rolls the transaction back and
re-raises.  `_store_logs` executes one INSERT per record inside one such
`with` block.  The database is modelled by its committed rows; rows
inserted inside the open transaction are pending until the commit. -/

/-- One row of the `logs` table. -/
structure Row where
  source : String
  product : String
  eventType : String
  severity : String
  timestamp : Nat
  rawData : String
  deriving Repr, DecidableEq

/-- Building the parameter tuple of one INSERT: each `log[...]` access
raises `KeyError` on a missing key (equivalently, a null in a NOT NULL
column fails the row), in the order the columns are listed. -/
def rowOf (r : LogRecord) : Except Err Row :=
  match r.source with
  | none => .error (.keyError "source")
  | some src =>
    match r.product with
    | none => .error (.keyError "product")
    | some prod =>
      match r.eventType with
      | none => .error (.keyError "event_type")
      | some et =>
        match r.severity with
        | none => .error (.keyError "severity")
        | some sev =>
          match r.timestamp with
          | none => .error (.keyError "timestamp")
          | some ts =>
            match r.rawData with
            | none => .error (.keyError "raw_data")
            | some raw =>
              .ok { source := src, product := prod, eventType := et,
                    severity := sev, timestamp := ts, rawData := raw }

/-- Whether a record can be inserted as a row. -/
def recordOk (r : LogRecord) : Bool := (rowOf r).toOption.isSome

/-- The rows of the insertable records, in order. -/
def rowsOf (logs : List LogRecord) : List Row :=
  logs.filterMap fun r => (rowOf r).toOption

/-- The insert loop inside the `with` block: execute one INSERT per record
into the open transaction (`pend`: rows written but not yet committed),
stopping at the first failure. -/
def runInserts : List Row → List LogRecord → List Row × Option Err
  | pend, [] => (pend, none)
  | pend, r :: rs =>
    match rowOf r with
    | .ok row => runInserts (pend ++ [row]) rs
    | .error e => (pend, some e)

/-- `get_cursor` around the insert loop: commit on success (pending rows
become committed), roll back on any exception (pending rows are discarded)
and re-raise. -/
def withCursorInserts (committed : List Row) (logs : List LogRecord) :
    List Row × Option Err :=
  match runInserts [] logs with
  | (pend, none) => (committed ++ pend, none)
  | (_, some e) => (committed, some e)

/-- `SchedulerService._store_logs`: early return on an empty list,
otherwise the transactional insert loop; the `except` clause logs and
re-raises. -/
def storeLogs (committed : List Row) (logs : List LogRecord) :
    List Row × Option Err :=
  if logs.isEmpty then (committed, none)
  else withCursorInserts committed logs

/-! ### The connector (`JsonPlaceholderService`) -/

/-- One entry of the `sources` list of the configuration, with the keys
the scheduler service and the connector read (`enabled` carries its
`.get('enabled', True)` default). -/
structure SourceConfig where
  name : Option String
  typ : Option String
  schedule : Option String
  enabled : Bool
  product : Option String
  eventType : Option String
  severity : Option String

/-- One iteration of the `transform` loop: build a `LogEntry` from the
item and the service config and take its `to_dict`.  `self.config['name']`
raises `KeyError` when the config has no name; the other fields fall back
to their `.get` defaults. -/
def convertItem (cfg : SourceConfig) (now : Nat) (item : Json) : Except Err LogRecord :=
  match cfg.name with
  | none => .error (.keyError "name")
  | some src =>
    .ok (LogEntry.toRecord
      (mkLogEntry src (cfg.product.getD "unknown") (cfg.eventType.getD "api_request")
        item (cfg.severity.getD "info") none now))

/-- The accumulator loop of `JsonPlaceholderService.transform`: each item
is converted inside `try`; a success is appended, a failure is logged and
skipped (`continue`). -/
def transformGo (cfg : SourceConfig) (now : Nat) :
    List LogRecord → List Json → List LogRecord
  | acc, [] => acc
  | acc, item :: rest =>
    match convertItem cfg now item with
    | .ok entry => transformGo cfg now (acc ++ [entry]) rest
    | .error _ => transformGo cfg now acc rest

/-- `JsonPlaceholderService.transform`. -/
def transform (cfg : SourceConfig) (now : Nat) (data : List Json) : List LogRecord :=
  transformGo cfg now [] data

/-! ### The scheduler service (`src/scheduler/scheduler_service.py`) -/

/-- `SERVICE_REGISTRY`: the service types known to the factory. -/
def serviceRegistry : List String := ["json_placeholder"]

/-- `ServiceFactory.from_config` / `create_service`: fail on a missing or
unknown `type`, otherwise construct the instance (the only registered
type, `JsonPlaceholderService`, is fully determined by the config the
factory hands it). -/
def serviceFromConfig (cfg : SourceConfig) : Except Err SourceConfig :=
  match cfg.typ with
  | none => .error (.valueError "Service type not specified in config")
  | some t =>
    if serviceRegistry.contains t then .ok cfg
    else .error (.valueError ("Unknown service type: " ++ t))

/-- One entry of `self.services`: the constructed instance and the raw
config stored next to it. -/
structure ServiceEntry where
  instanceCfg : SourceConfig
  cfg : SourceConfig

/-- The state of a `SchedulerService`: its `services` dict, the wrapped
`Scheduler`, and the committed rows of the shared database connection. -/
structure SvcState where
  services : List (String × ServiceEntry)
  sched : SchedState
  db : List Row

/-- One iteration of the `initialize_services` loop: skip a disabled
service or one without a schedule (`if not schedule` also skips an empty
string); otherwise, inside `try`, build the connector, record it in
`self.services`, and schedule it — an exception from either step is caught
and logged and the loop continues.  The `services` insertion precedes
`add_job`, so a service whose schedule is rejected stays registered but
unscheduled. -/
def registerOne (nf : String → Nat) (st : SvcState) (cfg : SourceConfig) : SvcState :=
  let serviceName := cfg.name.getD "unknown"
  if !cfg.enabled then st
  else
    match cfg.schedule with
    | none => st
    | some sched =>
      if sched.isEmpty then st
      else
        match serviceFromConfig cfg with
        | .error _ => st
        | .ok inst =>
          let st1 : SvcState :=
            { st with services := dictSet st.services serviceName ⟨inst, cfg⟩ }
          let jc : JobConfig := { name := cfg.name, enabled := cfg.enabled }
          { st1 with sched := (Scheduler.addJob nf st1.sched serviceName sched jc).1 }

/-- `SchedulerService.initialize_services`: iterate over all configured
sources (the empty-configuration early return coincides with an empty
fold). -/
def initServices (nf : String → Nat) (st : SvcState) (sources : List SourceConfig) : SvcState :=
  sources.foldl (registerOne nf) st

/-- Observable side effects of one service execution. -/
inductive Effect where
  | logInfo (msg : String)
  | logWarn (msg : String)
  | logError (msg : String)
  | stored (count : Nat)
  deriving Repr, DecidableEq

/-- `SchedulerService._execute_service`.  The network fetch is external,
so `fetchResult` carries the outcome of `await service.fetch_data()`.  An
unknown service name logs an error and returns normally, touching nothing
else; inside the `try`, empty data or an empty transform result warn and
return normally; an exception from fetch or store is logged and re-raised
(the `Option Err` component). -/
def executeService (st : SvcState) (serviceName : String)
    (fetchResult : Except Err (List Json)) (now : Nat) :
    SvcState × List Effect × Option Err :=
  match List.lookup serviceName st.services with
  | none => (st, [Effect.logError ("Service not found: " ++ serviceName)], none)
  | some entry =>
    match fetchResult with
    | .error e =>
      (st, [Effect.logInfo ("Executing service: " ++ serviceName),
            Effect.logError ("Error executing service: " ++ serviceName)], some e)
    | .ok data =>
      if data.isEmpty then
        (st, [Effect.logInfo ("Executing service: " ++ serviceName),
              Effect.logWarn ("No data received from " ++ serviceName)], none)
      else
        let entries := transform entry.instanceCfg now data
        if entries.isEmpty then
          (st, [Effect.logInfo ("Executing service: " ++ serviceName),
                Effect.logWarn ("No log entries generated from " ++ serviceName)], none)
        else
          match storeLogs st.db entries with
          | (db2, none) =>
            ({ st with db := db2 },
             [Effect.logInfo ("Executing service: " ++ serviceName),
              Effect.stored entries.length,
              Effect.logInfo ("Successfully processed logs from " ++ serviceName)], none)
          | (db2, some e) =>
            ({ st with db := db2 },
             [Effect.logInfo ("Executing service: " ++ serviceName),
              Effect.logError ("Error executing service: " ++ serviceName)], some e)

/-- A source config that registers successfully on its own: enabled, with
a non-empty valid schedule and a known service type. -/
def goodSource (cfg : SourceConfig) : Bool :=
  cfg.enabled &&
    (match cfg.schedule with
     | none => false
     | some s => !s.isEmpty && validCron s) &&
    (match cfg.typ with
     | none => false
     | some t => serviceRegistry.contains t)

/-! ## Theorems -/

theorem lookup_dictSet_self (m : List (String × α)) (k : String) (v : α) :
    List.lookup k (dictSet m k v) = some v := by
  induction m with
  | nil => simp [dictSet, List.lookup]
  | cons kv rest ih =>
    by_cases h : kv.1 = k
    · simp [dictSet, h, List.lookup]
    · have hb : (k == kv.1) = false := beq_eq_false_iff_ne.mpr (Ne.symm h)
      have hb2 : (kv.1 == k) = false := beq_eq_false_iff_ne.mpr h
      simp only [dictSet, hb2, Bool.false_eq_true, if_neg, not_false_eq_true]
      simp [List.lookup, hb, ih]

theorem lookup_dictSet_preserve (m : List (String × α)) (k k2 : String) (v : α)
    (h : (List.lookup k m).isSome = true) :
    (List.lookup k (dictSet m k2 v)).isSome = true := by
  induction m with
  | nil => simp [List.lookup] at h
  | cons kv rest ih =>
    cases hkv : (k == kv.1) with
    | true =>
      by_cases h1 : kv.1 = k2
      · have hk2 : (k == k2) = true := by rw [← h1]; exact hkv
        simp [dictSet, h1, List.lookup, hk2]
      · have hb : (kv.1 == k2) = false := beq_eq_false_iff_ne.mpr h1
        simp [dictSet, hb, List.lookup, hkv]
    | false =>
      have h2 : (List.lookup k rest).isSome = true := by
        simpa [List.lookup, hkv] using h
      by_cases h1 : kv.1 = k2
      · cases hk2 : (k == k2) with
        | true => simp [dictSet, h1, List.lookup, hk2]
        | false => simp [dictSet, h1, List.lookup, hk2, h2]
      · have hb : (kv.1 == k2) = false := beq_eq_false_iff_ne.mpr h1
        simp [dictSet, hb, List.lookup, hkv, ih h2]

theorem lookup_map_value (m : List (String × α)) (k : String) (g : α → β) :
    List.lookup k (m.map fun kv => (kv.1, g kv.2)) = (List.lookup k m).map g := by
  induction m with
  | nil => simp [List.lookup]
  | cons kv rest ih =>
    cases h : (k == kv.1) with
    | true => simp [List.lookup, h]
    | false => simp [List.lookup, h, ih]

theorem lookup_map_nextRun (nf : String → Nat) (m : List (String × StoredJob)) (k : String) :
    List.lookup k (m.map fun kv =>
        (kv.1, { kv.2 with nextRunTime := some (nf kv.2.schedule) })) =
      (List.lookup k m).map fun j => { j with nextRunTime := some (nf j.schedule) } := by
  induction m with
  | nil => simp [List.lookup]
  | cons kv rest ih =>
    cases h : (k == kv.1) with
    | true => simp [List.lookup, h]
    | false => simp [List.lookup, h, ih]

/-- `add_job` on a well-formed cron expression: both validation steps pass,
the job lands in the job store (with the `job_defaults` instance cap and a
`next_run_time` only when the scheduler is already running) and in the
`_jobs` bookkeeping dict with zeroed statistics. -/
theorem addJob_valid (nf : String → Nat) (s : SchedState) (jobId schedule : String)
    (jc : JobConfig) (h : validCron schedule = true) :
    Scheduler.addJob nf s jobId schedule jc =
      ({ s with
          schedJobs := dictSet s.schedJobs jobId
            { schedule := schedule
              maxInstances := s.jobDefaultMaxInstances
              nextRunTime := if s.running then some (nf schedule) else none }
          jobs := dictSet s.jobs jobId
            { schedule := schedule, cfg := jc, lastRun := none
              runCount := 0, errorCount := 0 } },
       none) := by
  unfold validCron at h
  rw [Bool.and_eq_true] at h
  unfold Scheduler.addJob
  simp [h.1, h.2]

/-- C7: `start()` is idempotent — a second `start()` on a running
scheduler only logs the "already running" warning and returns the state of
the first call unchanged (no second firing loop or state change). -/
theorem start_idempotent (nf : String → Nat) (s : SchedState) :
    (Scheduler.start nf (Scheduler.start nf s).1).1 = (Scheduler.start nf s).1 ∧
    (Scheduler.start nf (Scheduler.start nf s).1).2 =
      [LogLine.warn "Scheduler is already running"] := by
  by_cases h : s.running
  · simp [Scheduler.start, h]
  · simp [Scheduler.start, h]

theorem fireJob_jobs (nf : String → Nat) (s : SchedState) (jobId : String)
    (r : RunResult) : (Scheduler.fireJob nf s jobId r).jobs = s.jobs := by
  unfold Scheduler.fireJob
  cases r <;> cases List.lookup jobId s.schedJobs <;> rfl

theorem fireJob_stats (nf : String → Nat) (s : SchedState) (jobId k : String)
    (r : RunResult) :
    Scheduler.statsOf (Scheduler.fireJob nf s jobId r) k = Scheduler.statsOf s k := by
  unfold Scheduler.statsOf
  rw [fireJob_jobs]

/-- C1: the code never updates the per-job statistics.  `scheduler.py`
initialises `last_run`/`run_count`/`error_count` in `_jobs` and reads them
back in `get_job_status`, but registers no listener and wraps the job
function in nothing, so after any sequence of executions — however many of
them fail — every job's statistics still read exactly as at registration
(`last_run = None`, `run_count = 0 = error_count`), contradicting the
claimed recording/incrementing behaviour. -/
theorem fireSeq_stats_frozen (nf : String → Nat) (s : SchedState)
    (fires : List (String × RunResult)) (jobId : String) :
    Scheduler.statsOf (Scheduler.fireSeq nf s fires) jobId = Scheduler.statsOf s jobId := by
  induction fires generalizing s with
  | nil => rfl
  | cons p rest ih =>
    unfold Scheduler.fireSeq at *
    rw [List.foldl_cons, ih, fireJob_stats]

/-- C9: the connector's `transform` is total: it returns exactly the
successfully converted items (a failed conversion is logged and skipped),
so its output is the `filterMap` of the per-item conversion and never
longer than the input. -/
theorem transform_total (cfg : SourceConfig) (now : Nat) (data : List Json) :
    transform cfg now data =
      data.filterMap (fun item => (convertItem cfg now item).toOption) ∧
    (transform cfg now data).length ≤ data.length := by
  have hgo : ∀ (d : List Json) (acc : List LogRecord),
      transformGo cfg now acc d =
        acc ++ d.filterMap (fun item => (convertItem cfg now item).toOption) := by
    intro d
    induction d with
    | nil => intro acc; simp [transformGo]
    | cons item rest ih =>
      intro acc
      cases h : convertItem cfg now item with
      | ok entry => simp [transformGo, h, ih, Except.toOption]
      | error e => simp [transformGo, h, ih, Except.toOption]
  constructor
  · simpa [transform] using hgo data []
  · rw [transform, hgo data []]
    simpa using List.length_filterMap_le _ data

/-- C10: executing a job whose service name is not registered returns
normally (no exception propagates), logs only the error line, and leaves
the state — scheduler, services and database — untouched: no fetch,
transform or store happens. -/
theorem executeService_unknown_name (st : SvcState) (serviceName : String)
    (fetchResult : Except Err (List Json)) (now : Nat)
    (h : List.lookup serviceName st.services = none) :
    executeService st serviceName fetchResult now =
      (st, [Effect.logError ("Service not found: " ++ serviceName)], none) := by
  unfold executeService
  rw [h]

/-- Witness for C10 at a service map with no entries. -/
theorem executeService_unknown_name_witness :
    List.lookup "nope" (SvcState.mk [] (initScheduler defaultSchedulerConfig) []).services
        = none ∧
    executeService ⟨[], initScheduler defaultSchedulerConfig, []⟩ "nope" (Except.ok []) 0 =
      (⟨[], initScheduler defaultSchedulerConfig, []⟩,
       [Effect.logError ("Service not found: " ++ "nope")], none) :=
  ⟨rfl, executeService_unknown_name _ _ _ _ rfl⟩

theorem runInserts_ok (logs : List LogRecord) :
    ∀ pend, logs.all recordOk = true → runInserts pend logs = (pend ++ rowsOf logs, none) := by
  induction logs with
  | nil => intro pend _; simp [runInserts, rowsOf]
  | cons r rs ih =>
    intro pend h
    rw [List.all_cons, Bool.and_eq_true] at h
    cases hr : rowOf r with
    | ok row =>
      rw [show runInserts pend (r :: rs) = runInserts (pend ++ [row]) rs by
        simp [runInserts, hr]]
      rw [ih _ h.2]
      simp [rowsOf, List.filterMap_cons, hr, Except.toOption]
    | error e =>
      exfalso
      have := h.1
      rw [recordOk, hr] at this
      simp [Except.toOption] at this

theorem runInserts_fail (logs : List LogRecord) :
    ∀ pend, logs.all recordOk = false → (runInserts pend logs).2.isSome = true := by
  induction logs with
  | nil => intro pend h; simp at h
  | cons r rs ih =>
    intro pend h
    rw [List.all_cons, Bool.and_eq_false_iff] at h
    cases hr : rowOf r with
    | ok row =>
      have hrs : rs.all recordOk = false := by
        rcases h with h | h
        · rw [recordOk, hr] at h; simp [Except.toOption] at h
        · exact h
      rw [show runInserts pend (r :: rs) = runInserts (pend ++ [row]) rs by
        simp [runInserts, hr]]
      exact ih _ hrs
    | error e => simp [runInserts, hr]

/-- C4: the bulk insert is all-or-nothing.  `_store_logs` runs every
per-row INSERT inside one `get_cursor` transaction; when every record is
insertable the whole batch is committed (all rows appended), and when any
record fails the transaction is rolled back (the committed rows are
exactly the old ones) and the error is re-raised to the caller. -/
theorem storeLogs_atomic (committed : List Row) (logs : List LogRecord) :
    (storeLogs committed logs).1 =
      (if logs.all recordOk then committed ++ rowsOf logs else committed) ∧
    (storeLogs committed logs).2.isSome = !logs.all recordOk := by
  by_cases he : logs.isEmpty
  · rw [List.isEmpty_iff] at he
    subst he
    simp [storeLogs, rowsOf]
  · cases hall : logs.all recordOk with
    | true =>
      have h1 := runInserts_ok logs [] hall
      simp [storeLogs, he, withCursorInserts, h1, hall]
    | false =>
      have h1 := runInserts_fail logs [] hall
      rcases hr : runInserts [] logs with ⟨pend, o⟩
      rw [hr] at h1
      cases o with
      | none => simp at h1
      | some e => simp [storeLogs, he, withCursorInserts, hr, hall]

/-- Counterexample to C3 as stated: at the malformed schedule `"* * *"`,
`add_job` fails with Python `ValueError` — not with the spec's
`InvalidScheduleError`, which the code never defines or raises. -/
theorem addJob_wrong_count_not_invalidScheduleError :
    (Scheduler.addJob (fun _ => 0) (initScheduler defaultSchedulerConfig) "job1" "* * *"
        { name := none, enabled := true }).2 =
      some (Err.valueError ("Invalid cron expression: " ++ "* * *")) ∧
    Err.isInvalidSchedule (Err.valueError ("Invalid cron expression: " ++ "* * *")) = false := by
  constructor
  · decide
  · rfl

/-- C3 (amended): for every schedule string that is not exactly five
whitespace-separated valid cron fields, `add_job` fails with `ValueError`
(the code's own field-count check or `CronTrigger`; no
`InvalidScheduleError` type exists in the code) and no job is registered
under that id — the job map and the underlying scheduler are returned
unchanged. -/
theorem addJob_malformed_valueError (nf : String → Nat) (s : SchedState)
    (jobId schedule : String) (jc : JobConfig) (h : validCron schedule = false) :
    ∃ msg, Scheduler.addJob nf s jobId schedule jc = (s, some (Err.valueError msg)) := by
  unfold validCron at h
  rw [Bool.and_eq_false_iff] at h
  unfold Scheduler.addJob
  rcases h with h | h
  · refine ⟨"Invalid cron expression: " ++ schedule, ?_⟩
    simp [h]
  · cases hlen : ((cronParts schedule).length == 5) with
    | false =>
      refine ⟨"Invalid cron expression: " ++ schedule, ?_⟩
      simp [hlen]
    | true =>
      refine ⟨"Unrecognized expression for cron field", ?_⟩
      simp [hlen, h]

/-- Witness for C3 (amended) at the schedule `"* * *"`. -/
theorem addJob_malformed_valueError_witness :
    validCron "* * *" = false ∧
    ∃ msg, Scheduler.addJob (fun _ => 0) (initScheduler defaultSchedulerConfig) "w3" "* * *"
        { name := none, enabled := true } =
      (initScheduler defaultSchedulerConfig, some (Err.valueError msg)) :=
  ⟨by decide, addJob_malformed_valueError _ _ _ _ _ (by decide)⟩

/-- Counterexample to C6 as stated: on a scheduler that has not been
started, `add_job` with the well-formed expression `"*/5 * * * *"`
succeeds, yet `get_job_status` reports `next_run = None` — the job is
still pending (the source's own comment: "Will be set when scheduler
starts"). -/
theorem getJobStatus_nextRun_none_before_start :
    (Scheduler.addJob (fun _ => 0) (initScheduler defaultSchedulerConfig) "j" "*/5 * * * *"
        { name := none, enabled := true }).2 = none ∧
    (Scheduler.getJobStatus
        (Scheduler.addJob (fun _ => 0) (initScheduler defaultSchedulerConfig) "j" "*/5 * * * *"
          { name := none, enabled := true }).1 "j").map JobStatus.nextRun = some none := by
  constructor
  · decide
  · decide

/-- C6 (amended): for every well-formed 5-field cron expression `add_job`
succeeds, and once the scheduler has been started `get_job_status` for
that id reports a non-none `next_run` (before `start()` the job is pending
and `next_run` is none, as the counterexample shows). -/
theorem addJob_start_nextRun_some (nf : String → Nat) (s : SchedState)
    (jobId schedule : String) (jc : JobConfig) (h : validCron schedule = true) :
    (Scheduler.addJob nf s jobId schedule jc).2 = none ∧
    (Scheduler.getJobStatus
        (Scheduler.start nf (Scheduler.addJob nf s jobId schedule jc).1).1 jobId).map
      JobStatus.nextRun = some (some (nf schedule)) := by
  rw [addJob_valid nf s jobId schedule jc h]
  refine ⟨rfl, ?_⟩
  by_cases hr : s.running
  · simp [Scheduler.start, hr, Scheduler.getJobStatus, lookup_dictSet_self]
  · simp [Scheduler.start, hr, Scheduler.getJobStatus, lookup_dictSet_self,
      lookup_map_nextRun]

/-- Witness for C6 (amended) at the schedule `"*/30 * * * *"`. -/
theorem addJob_start_nextRun_some_witness :
    validCron "*/30 * * * *" = true ∧
    ((Scheduler.addJob (fun _ => 7) (initScheduler defaultSchedulerConfig) "w6" "*/30 * * * *"
        { name := none, enabled := true }).2 = none ∧
      (Scheduler.getJobStatus
          (Scheduler.start (fun _ => 7)
            (Scheduler.addJob (fun _ => 7) (initScheduler defaultSchedulerConfig) "w6"
              "*/30 * * * *" { name := none, enabled := true }).1).1 "w6").map
        JobStatus.nextRun = some (some 7)) :=
  ⟨by decide, addJob_start_nextRun_some _ _ _ _ _ (by decide)⟩

/-- Counterexample to C2 as stated: under the default configuration, the
per-job concurrent-instance cap recorded for a registered job is
`max_parallel_jobs = 3` (the `job_defaults` pass the global knob as every
job's `max_instances`), not 1. -/
theorem perJobCap_default_is_three :
    (List.lookup "j2"
        (Scheduler.addJob (fun _ => 0) (initScheduler defaultSchedulerConfig) "j2" "0 12 * * *"
          { name := none, enabled := true }).1.schedJobs).map StoredJob.maxInstances =
      some 3 ∧ (3 : Nat) ≠ 1 := by
  constructor
  · decide
  · decide

/-- C2 (amended): every job registered through the Scheduler Core gets a
per-job concurrent-instance cap equal to the scheduler's
`max_parallel_jobs` (default 3): `__init__` copies `max_parallel_jobs`
into `job_defaults['max_instances']` and `add_job` passes no per-job
override, so there is no per-job cap of 1 and no separate global
semaphore. -/
theorem perJobCap_eq_maxParallelJobs (nf : String → Nat) (s : SchedState)
    (cfg : SchedulerConfig) (jobId schedule : String) (jc : JobConfig)
    (hs : s.jobDefaultMaxInstances = s.maxParallelJobs)
    (h : validCron schedule = true) :
    (initScheduler cfg).jobDefaultMaxInstances = (initScheduler cfg).maxParallelJobs ∧
    (List.lookup jobId (Scheduler.addJob nf s jobId schedule jc).1.schedJobs).map
      StoredJob.maxInstances = some s.maxParallelJobs := by
  refine ⟨rfl, ?_⟩
  rw [addJob_valid nf s jobId schedule jc h]
  simp [lookup_dictSet_self, hs]

/-- Witness for C2 (amended) on a freshly constructed default scheduler. -/
theorem perJobCap_eq_maxParallelJobs_witness :
    (initScheduler defaultSchedulerConfig).jobDefaultMaxInstances =
        (initScheduler defaultSchedulerConfig).maxParallelJobs ∧
    validCron "0 12 * * *" = true ∧
    ((initScheduler defaultSchedulerConfig).jobDefaultMaxInstances =
        (initScheduler defaultSchedulerConfig).maxParallelJobs ∧
      (List.lookup "w2"
          (Scheduler.addJob (fun _ => 0) (initScheduler defaultSchedulerConfig) "w2"
            "0 12 * * *" { name := none, enabled := true }).1.schedJobs).map
        StoredJob.maxInstances = some (initScheduler defaultSchedulerConfig).maxParallelJobs) :=
  ⟨rfl, by decide,
    perJobCap_eq_maxParallelJobs _ _ defaultSchedulerConfig _ _ _ rfl (by decide)⟩

theorem addJob_jobs_shape (nf : String → Nat) (s : SchedState) (jobId schedule : String)
    (jc : JobConfig) :
    (Scheduler.addJob nf s jobId schedule jc).1.jobs = s.jobs ∨
    ∃ info, (Scheduler.addJob nf s jobId schedule jc).1.jobs = dictSet s.jobs jobId info := by
  unfold Scheduler.addJob
  by_cases h1 : ((cronParts schedule).length == 5) = true
  · by_cases h2 : ((cronParts schedule).all cronFieldValid) = true
    · right
      refine ⟨⟨schedule, jc, none, 0, 0⟩, ?_⟩
      simp [h1, h2]
    · left; simp [h1, h2]
  · left; simp [h1]

theorem registerOne_preserves_services (nf : String → Nat) (st : SvcState)
    (cfg : SourceConfig) (k : String) (h : dictHas st.services k = true) :
    dictHas (registerOne nf st cfg).services k = true := by
  unfold registerOne
  cases he : cfg.enabled with
  | false => simpa [he] using h
  | true =>
    cases hs : cfg.schedule with
    | none => simpa [he, hs] using h
    | some sched =>
      cases hemp : sched.isEmpty with
      | true => simpa [he, hs, hemp] using h
      | false =>
        cases hfac : serviceFromConfig cfg with
        | error e => simpa [he, hs, hemp, hfac] using h
        | ok inst =>
          simp only [he, hs, hemp, hfac, Bool.not_true, Bool.false_eq_true, if_false]
          unfold dictHas at h ⊢
          exact lookup_dictSet_preserve _ _ _ _ h

theorem registerOne_preserves_jobs (nf : String → Nat) (st : SvcState)
    (cfg : SourceConfig) (k : String) (h : dictHas st.sched.jobs k = true) :
    dictHas (registerOne nf st cfg).sched.jobs k = true := by
  unfold registerOne
  cases he : cfg.enabled with
  | false => simpa [he] using h
  | true =>
    cases hs : cfg.schedule with
    | none => simpa [he, hs] using h
    | some sched =>
      cases hemp : sched.isEmpty with
      | true => simpa [he, hs, hemp] using h
      | false =>
        cases hfac : serviceFromConfig cfg with
        | error e => simpa [he, hs, hemp, hfac] using h
        | ok inst =>
          simp only [he, hs, hemp, hfac, Bool.not_true, Bool.false_eq_true, if_false]
          rcases addJob_jobs_shape nf st.sched (cfg.name.getD "unknown") sched
              { name := cfg.name, enabled := true } with hsh | ⟨info, hsh⟩
          · simpa [hsh] using h
          · rw [hsh]
            unfold dictHas at h ⊢
            exact lookup_dictSet_preserve _ _ _ _ h

theorem registerOne_good (nf : String → Nat) (st : SvcState) (cfg : SourceConfig)
    (hg : goodSource cfg = true) :
    dictHas (registerOne nf st cfg).services (cfg.name.getD "unknown") = true ∧
    dictHas (registerOne nf st cfg).sched.jobs (cfg.name.getD "unknown") = true := by
  unfold goodSource at hg
  rw [Bool.and_eq_true, Bool.and_eq_true] at hg
  obtain ⟨⟨hen, hsch⟩, hty⟩ := hg
  cases hs : cfg.schedule with
  | none => rw [hs] at hsch; simp at hsch
  | some sched =>
    rw [hs] at hsch
    rw [Bool.and_eq_true] at hsch
    obtain ⟨hne, hval⟩ := hsch
    cases ht : cfg.typ with
    | none => rw [ht] at hty; simp at hty
    | some t =>
      rw [ht] at hty
      simp only [] at hty
      have hfac : serviceFromConfig cfg = Except.ok cfg := by
        have htym : t ∈ serviceRegistry := by simpa using hty
        unfold serviceFromConfig
        rw [ht]
        simp [htym]
      have hemp : sched.isEmpty = false := by
        cases hres : sched.isEmpty with
        | false => rfl
        | true => rw [hres] at hne; simp at hne
      unfold registerOne
      simp only [hen, hs, hemp, hfac, Bool.not_true, Bool.false_eq_true, if_false]
      rw [addJob_valid nf st.sched (cfg.name.getD "unknown") sched
        { name := cfg.name, enabled := true } hval]
      constructor
      · unfold dictHas
        rw [lookup_dictSet_self]
        rfl
      · unfold dictHas
        rw [lookup_dictSet_self]
        rfl

theorem initServices_preserves (nf : String → Nat) (sources : List SourceConfig)
    (st : SvcState) (k : String) :
    (dictHas st.services k = true → dictHas (initServices nf st sources).services k = true) ∧
    (dictHas st.sched.jobs k = true →
      dictHas (initServices nf st sources).sched.jobs k = true) := by
  induction sources generalizing st with
  | nil => exact ⟨id, id⟩
  | cons c rest ih =>
    have hstep : initServices nf st (c :: rest) = initServices nf (registerOne nf st c) rest := by
      simp [initServices]
    rw [hstep]
    constructor
    · intro h
      exact (ih (registerOne nf st c)).1 (registerOne_preserves_services nf st c k h)
    · intro h
      exact (ih (registerOne nf st c)).2 (registerOne_preserves_jobs nf st c k h)

/-- C8: a failing source does not block later ones.  `initialize_services`
catches and logs any per-source failure and continues, so every source
config that registers successfully on its own (enabled, non-empty valid
schedule, known type) ends up registered in the service map and scheduled,
wherever it sits in the sequence and whatever invalid sources surround
it. -/
theorem initServices_registers_good (nf : String → Nat) (st : SvcState)
    (sources : List SourceConfig) (cfg : SourceConfig)
    (hmem : cfg ∈ sources) (hg : goodSource cfg = true) :
    dictHas (initServices nf st sources).services (cfg.name.getD "unknown") = true ∧
    dictHas (initServices nf st sources).sched.jobs (cfg.name.getD "unknown") = true := by
  induction sources generalizing st with
  | nil => cases hmem
  | cons c rest ih =>
    have hstep : initServices nf st (c :: rest) = initServices nf (registerOne nf st c) rest := by
      simp [initServices]
    rw [hstep]
    rcases List.mem_cons.mp hmem with rfl | hmem2
    · have h0 := registerOne_good nf st cfg hg
      exact ⟨(initServices_preserves nf rest _ _).1 h0.1,
             (initServices_preserves nf rest _ _).2 h0.2⟩
    · exact ih (registerOne nf st c) hmem2

/-- Witness for C8: a source with an unknown type precedes a good one; the
good one is registered and scheduled anyway. -/
theorem initServices_registers_good_witness :
    goodSource ⟨some "svc", some "json_placeholder", some "*/5 * * * *", true,
      none, none, none⟩ = true ∧
    (dictHas (initServices (fun _ => 0) ⟨[], initScheduler defaultSchedulerConfig, []⟩
        [⟨some "badsvc", some "no_such_type", some "*/5 * * * *", true, none, none, none⟩,
         ⟨some "svc", some "json_placeholder", some "*/5 * * * *", true,
           none, none, none⟩]).services "svc" = true ∧
      dictHas (initServices (fun _ => 0) ⟨[], initScheduler defaultSchedulerConfig, []⟩
        [⟨some "badsvc", some "no_such_type", some "*/5 * * * *", true, none, none, none⟩,
         ⟨some "svc", some "json_placeholder", some "*/5 * * * *", true,
           none, none, none⟩]).sched.jobs "svc" = true) :=
  ⟨by decide,
    initServices_registers_good _ _ _ _
      (List.mem_cons_of_mem _ (List.mem_cons_self _ _)) (by decide)⟩

theorem str_data_append (s t : String) : (s ++ t).data = s.data ++ t.data := by
  cases s; cases t; rfl

theorem skipWs_cons_false (c : Char) (cs : List Char) (h : c.isWhitespace = false) :
    skipWs (c :: cs) = c :: cs := by
  simp [skipWs, h]

theorem skipWs_cons_true (c : Char) (cs : List Char) (h : c.isWhitespace = true) :
    skipWs (c :: cs) = skipWs cs := by
  simp [skipWs, h]

theorem parseValue_cons_ws (fuel : Nat) (c : Char) (l : List Char)
    (h : c.isWhitespace = true) : parseValue fuel (c :: l) = parseValue fuel l := by
  cases fuel with
  | zero => rfl
  | succ f => rw [parseValue, parseValue, skipWs_cons_true c l h]

theorem parseItems_cons_ws (fuel : Nat) (c : Char) (l : List Char)
    (h : c.isWhitespace = true) : parseItems fuel (c :: l) = parseItems fuel l := by
  cases fuel with
  | zero => rfl
  | succ f => rw [parseItems, parseItems, parseValue_cons_ws f c l h]

theorem parseFields_cons_ws (fuel : Nat) (c : Char) (l : List Char)
    (h : c.isWhitespace = true) : parseFields fuel (c :: l) = parseFields fuel l := by
  cases fuel with
  | zero => rfl
  | succ f => rw [parseFields, parseFields, skipWs_cons_true c l h]

theorem parseLit_self (lit : List Char) (j : Json) (rest : List Char) :
    parseLit lit j (lit ++ rest) = some (j, rest) := by
  unfold parseLit
  rw [List.take_left, List.drop_left]
  simp

theorem takeWhile_append_all (p : Char → Bool) (l1 l2 : List Char)
    (h1 : ∀ c ∈ l1, p c = true) (h2 : ∀ c, l2.head? = some c → p c = false) :
    (l1 ++ l2).takeWhile p = l1 := by
  induction l1 with
  | nil =>
    cases l2 with
    | nil => rfl
    | cons c t => simp [List.takeWhile_cons, h2 c rfl]
  | cons a t ih =>
    have ha := h1 a (List.mem_cons_self a t)
    simp [List.takeWhile_cons, ha, ih (fun c hc => h1 c (List.mem_cons_of_mem _ hc))]

theorem dropWhile_append_all (p : Char → Bool) (l1 l2 : List Char)
    (h1 : ∀ c ∈ l1, p c = true) (h2 : ∀ c, l2.head? = some c → p c = false) :
    (l1 ++ l2).dropWhile p = l2 := by
  induction l1 with
  | nil =>
    cases l2 with
    | nil => rfl
    | cons c t => simp [List.dropWhile_cons, h2 c rfl]
  | cons a t ih =>
    have ha := h1 a (List.mem_cons_self a t)
    simp [List.dropWhile_cons, ha, ih (fun c hc => h1 c (List.mem_cons_of_mem _ hc))]

theorem parseNumTail_append (ds rest : List Char) (h1 : ds ≠ [])
    (h2 : ∀ c ∈ ds, c.isDigit = true)
    (h3 : ∀ c, rest.head? = some c → c.isDigit = false) :
    ∃ v, parseNumTail (ds ++ rest) = some (v, rest) := by
  refine ⟨ds.foldl (fun acc c => acc * 10 + (c.toNat - 48)) 0, ?_⟩
  unfold parseNumTail
  rw [takeWhile_append_all Char.isDigit ds rest h2 h3,
      dropWhile_append_all Char.isDigit ds rest h2 h3]
  cases ds with
  | nil => exact absurd rfl h1
  | cons a t => rfl

theorem str_append_assoc (a b c : String) : a ++ b ++ c = a ++ (b ++ c) := by
  cases a with
  | mk da =>
    cases b with
    | mk db =>
      cases c with
      | mk dc => exact congrArg String.mk (List.append_assoc da db dc)

theorem parseStringBody_escape (s : List Char) : ∀ rest : List Char,
    ∃ t, parseStringBody (jsonEscapeChars s ++ '"' :: rest) = some (t, rest) := by
  induction s with
  | nil =>
    intro rest
    refine ⟨"", ?_⟩
    rw [show jsonEscapeChars [] = [] from rfl, List.nil_append, parseStringBody.eq_def]
    simp only []
    rw [if_pos trivial]
  | cons c cs ih =>
    intro rest
    by_cases hq : c = '"'
    · obtain ⟨t, ht⟩ := ih rest
      refine ⟨String.singleton '"' ++ t, ?_⟩
      subst hq
      rw [show jsonEscapeChars ('"' :: cs) = '\\' :: '"' :: jsonEscapeChars cs by
        simp [jsonEscapeChars]]
      rw [List.cons_append, List.cons_append, parseStringBody.eq_def]
      simp only []
      rw [if_pos trivial, ht]
      rfl
    · by_cases hb : c = '\\'
      · obtain ⟨t, ht⟩ := ih rest
        refine ⟨String.singleton '\\' ++ t, ?_⟩
        subst hb
        rw [show jsonEscapeChars ('\\' :: cs) = '\\' :: '\\' :: jsonEscapeChars cs by
          simp [jsonEscapeChars]]
        rw [List.cons_append, List.cons_append, parseStringBody.eq_def]
        simp only []
        rw [if_pos trivial, ht]
        rfl
      · obtain ⟨t, ht⟩ := ih rest
        refine ⟨String.singleton c ++ t, ?_⟩
        rw [show jsonEscapeChars (c :: cs) = c :: jsonEscapeChars cs by
          simp [jsonEscapeChars, hq, hb]]
        rw [List.cons_append, parseStringBody.eq_def]
        simp only []
        rw [if_neg hq, if_neg hb, ht]
        rfl

theorem natDigitsGo_spec (n : Nat) : ∀ acc : List Char,
    ∃ pre, natDigitsGo n acc = pre ++ acc ∧ (∀ c ∈ pre, c.isDigit = true) ∧
      (n ≠ 0 → pre ≠ []) := by
  induction n using Nat.strong_induction_on with
  | _ n ih =>
    intro acc
    match n with
    | 0 => exact ⟨[], by simp [natDigitsGo], by simp, by simp⟩
    | Nat.succ m =>
      have hlt : (m + 1) / 10 < m + 1 := Nat.div_lt_self (Nat.succ_pos m) (by omega)
      obtain ⟨pre, hpre, hdig, _⟩ := ih _ hlt (Char.ofNat (48 + (m + 1) % 10) :: acc)
      have hcd : (Char.ofNat (48 + (m + 1) % 10)).isDigit = true := by
        have hb : ∀ k, k < 10 → (Char.ofNat (48 + k)).isDigit = true := by decide
        exact hb _ (Nat.mod_lt _ (by omega))
      refine ⟨pre ++ [Char.ofNat (48 + (m + 1) % 10)], ?_, ?_, by simp⟩
      · rw [natDigitsGo, hpre, List.append_assoc]
        rfl
      · intro c hc
        rcases List.mem_append.mp hc with hc | hc
        · exact hdig c hc
        · rw [List.mem_singleton.mp hc]
          exact hcd

theorem natRepr_shape (n : Nat) : ∃ d ds, (natRepr n).data = d :: ds ∧
    (∀ c ∈ (natRepr n).data, c.isDigit = true) := by
  unfold natRepr
  by_cases h : n = 0
  · subst h
    refine ⟨'0', [], by rfl, by decide⟩
  · rw [if_neg h]
    obtain ⟨pre, hpre, hdig, hne⟩ := natDigitsGo_spec n []
    rw [List.append_nil] at hpre
    cases hp : pre with
    | nil => exact absurd hp (hne h)
    | cons d ds =>
      subst hp
      refine ⟨d, ds, ?_, ?_⟩
      · rw [show (String.mk (natDigitsGo n [])).data = natDigitsGo n [] from rfl, hpre]
      · intro c hc
        rw [show (String.mk (natDigitsGo n [])).data = natDigitsGo n [] from rfl, hpre] at hc
        exact hdig c hc

theorem isDigit_ne (c : Char) (h : c.isDigit = true) (x : Char)
    (hx : x.isDigit = false) : c ≠ x := by
  intro hc
  subst hc
  rw [h] at hx
  cases hx

theorem isDigit_not_ws (c : Char) (h : c.isDigit = true) : c.isWhitespace = false := by
  cases hw : c.isWhitespace with
  | false => rfl
  | true =>
    exfalso
    unfold Char.isWhitespace at hw
    simp only [Bool.or_eq_true, decide_eq_true_eq] at hw
    rcases hw with ((rfl | rfl) | rfl) | rfl <;> exact absurd h (by decide)

theorem serialize_head_facts (j : Json) : ∃ c cs, (Json.serialize j).data = c :: cs ∧
    c.isWhitespace = false ∧ c ≠ ']' ∧ c ≠ '\x7d' := by
  cases j with
  | null =>
    refine ⟨'n', ['u', 'l', 'l'], ?_, by decide, by decide, by decide⟩
    rw [show Json.serialize Json.null = "null" by simp [Json.serialize]]
  | bool b =>
    cases b with
    | true =>
      refine ⟨'t', ['r', 'u', 'e'], ?_, by decide, by decide, by decide⟩
      rw [show Json.serialize (Json.bool true) = "true" by simp [Json.serialize]]
    | false =>
      refine ⟨'f', ['a', 'l', 's', 'e'], ?_, by decide, by decide, by decide⟩
      rw [show Json.serialize (Json.bool false) = "false" by simp [Json.serialize]]
  | num n =>
    rw [show Json.serialize (Json.num n) = intRepr n by simp [Json.serialize]]
    unfold intRepr
    by_cases hn : n < 0
    · rw [if_pos hn]
      obtain ⟨d, ds, hd, _⟩ := natRepr_shape n.natAbs
      refine ⟨'-', (natRepr n.natAbs).data, ?_, by decide, by decide, by decide⟩
      rw [str_data_append]
      rfl
    · rw [if_neg hn]
      obtain ⟨d, ds, hd, hdig⟩ := natRepr_shape n.toNat
      have hdd : d.isDigit = true := hdig d (by rw [hd]; exact List.mem_cons_self d ds)
      exact ⟨d, ds, hd, isDigit_not_ws d hdd, isDigit_ne d hdd ']' (by decide),
        isDigit_ne d hdd '\x7d' (by decide)⟩
  | str s =>
    refine ⟨'"', (jsonEscape s ++ "\"").data, ?_, by decide, by decide, by decide⟩
    rw [show Json.serialize (Json.str s) = "\"" ++ (jsonEscape s ++ "\"") by
      rw [show Json.serialize (Json.str s) = "\"" ++ jsonEscape s ++ "\"" by
        simp [Json.serialize]]
      exact str_append_assoc _ _ _]
    rw [str_data_append]
    rfl
  | arr xs =>
    refine ⟨'[', (serializeItems xs ++ "]").data, ?_, by decide, by decide, by decide⟩
    rw [show Json.serialize (Json.arr xs) = "[" ++ (serializeItems xs ++ "]") by
      rw [show Json.serialize (Json.arr xs) = "[" ++ serializeItems xs ++ "]" by
        simp [Json.serialize]]
      exact str_append_assoc _ _ _]
    rw [str_data_append]
    rfl
  | obj kvs =>
    refine ⟨'\x7b', (serializeFields kvs ++ "\x7d").data, ?_, by decide, by decide, by decide⟩
    rw [show Json.serialize (Json.obj kvs) = "\x7b" ++ (serializeFields kvs ++ "\x7d") by
      rw [show Json.serialize (Json.obj kvs) = "\x7b" ++ serializeFields kvs ++ "\x7d" by
        simp [Json.serialize]]
      exact str_append_assoc _ _ _]
    rw [str_data_append]
    rfl

theorem serializeItems_head (x : Json) (xs : List Json) : ∃ c cs,
    (serializeItems (x :: xs)).data = c :: cs ∧ c.isWhitespace = false ∧ c ≠ ']' := by
  obtain ⟨c, cs0, hdata, hws, hbr, _⟩ := serialize_head_facts x
  cases xs with
  | nil =>
    refine ⟨c, cs0, ?_, hws, hbr⟩
    rw [show serializeItems [x] = Json.serialize x by simp [serializeItems], hdata]
  | cons y ys =>
    refine ⟨c, cs0 ++ (", " ++ serializeItems (y :: ys)).data, ?_, hws, hbr⟩
    rw [show serializeItems (x :: y :: ys) =
        Json.serialize x ++ ", " ++ serializeItems (y :: ys) by simp [serializeItems]]
    rw [str_data_append, str_data_append, hdata, str_data_append]
    simp

theorem pv_n (fuel : Nat) (l : List Char) :
    parseValue (fuel + 1) ('n' :: l) = parseLit ['u', 'l', 'l'] Json.null l := by
  rw [parseValue, skipWs_cons_false _ _ (by decide)]
  simp only []
  rw [if_pos trivial]

theorem pv_t (fuel : Nat) (l : List Char) :
    parseValue (fuel + 1) ('t' :: l) = parseLit ['r', 'u', 'e'] (Json.bool true) l := by
  rw [parseValue, skipWs_cons_false _ _ (by decide)]
  simp only []
  rw [if_neg (by decide), if_pos trivial]

theorem pv_f (fuel : Nat) (l : List Char) :
    parseValue (fuel + 1) ('f' :: l) = parseLit ['a', 'l', 's', 'e'] (Json.bool false) l := by
  rw [parseValue, skipWs_cons_false _ _ (by decide)]
  simp only []
  rw [if_neg (by decide), if_neg (by decide), if_pos trivial]

theorem pv_quote (fuel : Nat) (l : List Char) :
    parseValue (fuel + 1) ('"' :: l) =
      (parseStringBody l).map fun p => (Json.str p.1, p.2) := by
  rw [parseValue, skipWs_cons_false _ _ (by decide)]
  simp only []
  rw [if_neg (by decide), if_neg (by decide), if_neg (by decide), if_pos trivial]

theorem pv_minus (fuel : Nat) (l : List Char) :
    parseValue (fuel + 1) ('-' :: l) =
      (parseNumTail l).map fun p => (Json.num (-(p.1 : Int)), p.2) := by
  rw [parseValue, skipWs_cons_false _ _ (by decide)]
  simp only []
  rw [if_neg (by decide), if_neg (by decide), if_neg (by decide), if_neg (by decide),
    if_pos trivial]

theorem pv_digit (fuel : Nat) (c : Char) (l : List Char) (h : c.isDigit = true) :
    parseValue (fuel + 1) (c :: l) =
      (parseNumTail (c :: l)).map fun p => (Json.num (p.1 : Int), p.2) := by
  rw [parseValue, skipWs_cons_false _ _ (isDigit_not_ws c h)]
  simp only []
  rw [if_neg (isDigit_ne c h 'n' (by decide)), if_neg (isDigit_ne c h 't' (by decide)),
    if_neg (isDigit_ne c h 'f' (by decide)), if_neg (isDigit_ne c h '"' (by decide)),
    if_neg (isDigit_ne c h '-' (by decide)), if_pos h]

theorem pv_lbracket (fuel : Nat) (l : List Char) :
    parseValue (fuel + 1) ('[' :: l) =
      (match skipWs l with
       | [] => none
       | d :: ds =>
         if d = ']' then some (Json.arr [], ds)
         else (parseItems fuel l).map fun p => (Json.arr p.1, p.2)) := by
  rw [parseValue, skipWs_cons_false _ _ (by decide)]
  simp only []
  rw [if_neg (by decide), if_neg (by decide), if_neg (by decide), if_neg (by decide),
    if_neg (by decide), if_neg (by decide), if_pos trivial]

theorem pv_lbrace (fuel : Nat) (l : List Char) :
    parseValue (fuel + 1) ('\x7b' :: l) =
      (match skipWs l with
       | [] => none
       | d :: ds =>
         if d = '\x7d' then some (Json.obj [], ds)
         else (parseFields fuel l).map fun p => (Json.obj p.1, p.2)) := by
  rw [parseValue, skipWs_cons_false _ _ (by decide)]
  simp only []
  rw [if_neg (by decide), if_neg (by decide), if_neg (by decide), if_neg (by decide),
    if_neg (by decide), if_neg (by decide), if_neg (by decide), if_pos trivial]

theorem serializeFields_head (kv : String × Json) (kvs : List (String × Json)) :
    ∃ cs, (serializeFields (kv :: kvs)).data = '"' :: cs := by
  cases kvs with
  | nil =>
    refine ⟨((jsonEscape kv.1 ++ ("\": " ++ Json.serialize kv.2))).data, ?_⟩
    rw [show serializeFields [kv] = "\"" ++ jsonEscape kv.1 ++ "\": " ++ Json.serialize kv.2
      from by simp [serializeFields]]
    rw [str_append_assoc, str_append_assoc, str_data_append]
    rfl
  | cons kv2 kvs2 =>
    refine ⟨((jsonEscape kv.1 ++ ("\": " ++ (Json.serialize kv.2 ++
      (", " ++ serializeFields (kv2 :: kvs2)))))).data, ?_⟩
    rw [show serializeFields (kv :: kv2 :: kvs2) = "\"" ++ jsonEscape kv.1 ++ "\": " ++
      Json.serialize kv.2 ++ ", " ++ serializeFields (kv2 :: kvs2)
      from by simp [serializeFields]]
    rw [str_append_assoc, str_append_assoc, str_append_assoc, str_append_assoc,
      str_data_append]
    rfl

theorem parse_serialize_main : ∀ fuel : Nat,
    (∀ (j : Json) (rest : List Char), jsize j ≤ fuel →
      (∀ c, rest.head? = some c → c.isDigit = false) →
      ∃ j2, parseValue fuel ((Json.serialize j).data ++ rest) = some (j2, rest)) ∧
    (∀ (xs : List Json) (rest : List Char), xs ≠ [] → jsizeList xs ≤ fuel →
      ∃ ys, parseItems fuel ((serializeItems xs).data ++ ']' :: rest) = some (ys, rest)) ∧
    (∀ (kvs : List (String × Json)) (rest : List Char), kvs ≠ [] → jsizeFields kvs ≤ fuel →
      ∃ ps, parseFields fuel ((serializeFields kvs).data ++ '\x7d' :: rest) =
        some (ps, rest)) := by
  intro fuel
  induction fuel with
  | zero =>
    refine ⟨?_, ?_, ?_⟩
    · intro j rest hj _
      exfalso
      cases j <;> simp [jsize] at hj
    · intro xs rest hne hsz
      exfalso
      cases xs with
      | nil => exact hne rfl
      | cons x t => simp [jsizeList] at hsz
    · intro kvs rest hne hsz
      exfalso
      cases kvs with
      | nil => exact hne rfl
      | cons kv t => simp [jsizeFields] at hsz
  | succ fuel ih =>
    obtain ⟨ihV, ihI, ihF⟩ := ih
    refine ⟨?_, ?_, ?_⟩
    · -- one value
      intro j rest hj hrest
      cases j with
      | null =>
        refine ⟨Json.null, ?_⟩
        rw [show (Json.serialize Json.null).data = ['n', 'u', 'l', 'l'] from by
          rw [show Json.serialize Json.null = "null" from by simp [Json.serialize]]]
        rw [List.cons_append, pv_n]
        exact parseLit_self ['u', 'l', 'l'] Json.null rest
      | bool b =>
        cases b with
        | true =>
          refine ⟨Json.bool true, ?_⟩
          rw [show (Json.serialize (Json.bool true)).data = ['t', 'r', 'u', 'e'] from by
            rw [show Json.serialize (Json.bool true) = "true" from by simp [Json.serialize]]]
          rw [List.cons_append, pv_t]
          exact parseLit_self ['r', 'u', 'e'] (Json.bool true) rest
        | false =>
          refine ⟨Json.bool false, ?_⟩
          rw [show (Json.serialize (Json.bool false)).data = ['f', 'a', 'l', 's', 'e'] from by
            rw [show Json.serialize (Json.bool false) = "false" from by
              simp [Json.serialize]]]
          rw [List.cons_append, pv_f]
          exact parseLit_self ['a', 'l', 's', 'e'] (Json.bool false) rest
      | str s =>
        obtain ⟨t, ht⟩ := parseStringBody_escape s.data rest
        refine ⟨Json.str t, ?_⟩
        have hdata : (Json.serialize (Json.str s)).data ++ rest =
            '"' :: (jsonEscapeChars s.data ++ '"' :: rest) := by
          rw [show Json.serialize (Json.str s) = "\"" ++ jsonEscape s ++ "\"" from by
            simp [Json.serialize]]
          rw [str_data_append, str_data_append]
          simp [jsonEscape]
        rw [hdata, pv_quote, ht]
        rfl
      | num n =>
        by_cases hn : n < 0
        · obtain ⟨d, ds, hd, hdig⟩ := natRepr_shape n.natAbs
          have hne : (natRepr n.natAbs).data ≠ [] := by rw [hd]; simp
          obtain ⟨v, hv⟩ :=
            parseNumTail_append (natRepr n.natAbs).data rest hne hdig hrest
          refine ⟨Json.num (-(v : Int)), ?_⟩
          have hdata : (Json.serialize (Json.num n)).data ++ rest =
              '-' :: ((natRepr n.natAbs).data ++ rest) := by
            rw [show Json.serialize (Json.num n) = intRepr n from by simp [Json.serialize]]
            unfold intRepr
            rw [if_pos hn, str_data_append]
            rfl
          rw [hdata, pv_minus, hv]
          rfl
        · obtain ⟨d, ds, hd, hdig⟩ := natRepr_shape n.toNat
          have hdd : d.isDigit = true := hdig d (by rw [hd]; exact List.mem_cons_self d ds)
          have hne2 : (natRepr n.toNat).data ≠ [] := by rw [hd]; simp
          obtain ⟨v, hv⟩ := parseNumTail_append (natRepr n.toNat).data rest hne2 hdig hrest
          refine ⟨Json.num (v : Int), ?_⟩
          have hdata : (Json.serialize (Json.num n)).data ++ rest = d :: (ds ++ rest) := by
            rw [show Json.serialize (Json.num n) = intRepr n from by simp [Json.serialize]]
            unfold intRepr
            rw [if_neg hn, hd]
            rfl
          rw [hdata, pv_digit fuel d (ds ++ rest) hdd]
          rw [hd, List.cons_append] at hv
          rw [hv]
          rfl
      | arr xs =>
        cases xs with
        | nil =>
          refine ⟨Json.arr [], ?_⟩
          have hdata : (Json.serialize (Json.arr [])).data ++ rest = '[' :: ']' :: rest := by
            rw [show Json.serialize (Json.arr []) = "[" ++ serializeItems [] ++ "]" from by
              simp [Json.serialize]]
            rw [show serializeItems [] = "" from by simp [serializeItems]]
            rfl
          rw [hdata, pv_lbracket, skipWs_cons_false _ _ (by decide)]
          simp only []
          rw [if_pos trivial]
        | cons x xs2 =>
          have hsz : jsizeList (x :: xs2) ≤ fuel := by
            rw [show jsize (Json.arr (x :: xs2)) = 1 + jsizeList (x :: xs2) from by
              simp [jsize]] at hj
            omega
          obtain ⟨ys, hys⟩ := ihI (x :: xs2) rest (by simp) hsz
          obtain ⟨c0, cs0, hhead, hws0, hbr0⟩ := serializeItems_head x xs2
          refine ⟨Json.arr ys, ?_⟩
          have hdata : (Json.serialize (Json.arr (x :: xs2))).data ++ rest =
              '[' :: ((serializeItems (x :: xs2)).data ++ ']' :: rest) := by
            rw [show Json.serialize (Json.arr (x :: xs2)) =
                "[" ++ serializeItems (x :: xs2) ++ "]" from by simp [Json.serialize]]
            rw [str_data_append, str_data_append]
            simp
          rw [hdata, pv_lbracket]
          rw [hhead, List.cons_append] at hys ⊢
          rw [skipWs_cons_false _ _ hws0]
          simp only []
          rw [if_neg hbr0, hys]
          rfl
      | obj kvs =>
        cases kvs with
        | nil =>
          refine ⟨Json.obj [], ?_⟩
          have hdata : (Json.serialize (Json.obj [])).data ++ rest =
              '\x7b' :: '\x7d' :: rest := by
            rw [show Json.serialize (Json.obj []) = "\x7b" ++ serializeFields [] ++ "\x7d"
              from by simp [Json.serialize]]
            rw [show serializeFields [] = "" from by simp [serializeFields]]
            rfl
          rw [hdata, pv_lbrace, skipWs_cons_false _ _ (by decide)]
          simp only []
          rw [if_pos trivial]
        | cons kv kvs2 =>
          have hsz : jsizeFields (kv :: kvs2) ≤ fuel := by
            rw [show jsize (Json.obj (kv :: kvs2)) = 1 + jsizeFields (kv :: kvs2) from by
              simp [jsize]] at hj
            omega
          obtain ⟨ps, hps⟩ := ihF (kv :: kvs2) rest (by simp) hsz
          obtain ⟨cs0, hhead⟩ := serializeFields_head kv kvs2
          refine ⟨Json.obj ps, ?_⟩
          have hdata : (Json.serialize (Json.obj (kv :: kvs2))).data ++ rest =
              '\x7b' :: ((serializeFields (kv :: kvs2)).data ++ '\x7d' :: rest) := by
            rw [show Json.serialize (Json.obj (kv :: kvs2)) =
                "\x7b" ++ serializeFields (kv :: kvs2) ++ "\x7d" from by
              simp [Json.serialize]]
            rw [str_data_append, str_data_append]
            simp
          rw [hdata, pv_lbrace]
          rw [hhead, List.cons_append] at hps ⊢
          rw [skipWs_cons_false _ _ (by decide)]
          simp only []
          rw [if_neg (by decide), hps]
          rfl
    · -- the elements of a non-empty array
      intro xs rest hne hsz
      cases xs with
      | nil => exact absurd rfl hne
      | cons x xs2 =>
        cases xs2 with
        | nil =>
          have hx : jsize x ≤ fuel := by
            rw [show jsizeList [x] = 1 + jsize x + jsizeList [] from by simp [jsizeList],
              show jsizeList ([] : List Json) = 0 from by simp [jsizeList]] at hsz
            omega
          obtain ⟨j2, hj2⟩ := ihV x (']' :: rest) hx (by intro c hc; cases hc; decide)
          refine ⟨[j2], ?_⟩
          rw [show serializeItems [x] = Json.serialize x from by simp [serializeItems]]
          rw [parseItems, hj2]
          simp only []
          rw [skipWs_cons_false _ _ (by decide)]
          simp only []
          rw [if_neg (by decide), if_pos trivial]
        | cons y ys2 =>
          have hx : jsize x ≤ fuel := by
            rw [show jsizeList (x :: y :: ys2) = 1 + jsize x + jsizeList (y :: ys2) from by
              simp [jsizeList]] at hsz
            omega
          have hx2 : jsizeList (y :: ys2) ≤ fuel := by
            rw [show jsizeList (x :: y :: ys2) = 1 + jsize x + jsizeList (y :: ys2) from by
              simp [jsizeList]] at hsz
            omega
          obtain ⟨j2, hj2⟩ := ihV x
            (',' :: ' ' :: ((serializeItems (y :: ys2)).data ++ ']' :: rest)) hx
            (by intro c hc; cases hc; decide)
          obtain ⟨ys, hys⟩ := ihI (y :: ys2) rest (by simp) hx2
          refine ⟨j2 :: ys, ?_⟩
          have hdata : (serializeItems (x :: y :: ys2)).data ++ ']' :: rest =
              (Json.serialize x).data ++
                (',' :: ' ' :: ((serializeItems (y :: ys2)).data ++ ']' :: rest)) := by
            rw [show serializeItems (x :: y :: ys2) =
                Json.serialize x ++ ", " ++ serializeItems (y :: ys2) from by
              simp [serializeItems]]
            rw [str_data_append, str_data_append]
            simp
          rw [parseItems, hdata, hj2]
          simp only []
          rw [skipWs_cons_false _ _ (by decide)]
          simp only []
          rw [if_pos trivial, parseItems_cons_ws fuel ' ' _ (by decide), hys]
          rfl
    · -- the members of a non-empty object
      intro kvs rest hne hsz
      cases kvs with
      | nil => exact absurd rfl hne
      | cons kv kvs2 =>
        cases kvs2 with
        | nil =>
          have hv : jsize kv.2 ≤ fuel := by
            rw [show jsizeFields [kv] = 1 + jsize kv.2 + jsizeFields [] from by
              simp [jsizeFields],
              show jsizeFields ([] : List (String × Json)) = 0 from by simp [jsizeFields]]
              at hsz
            omega
          obtain ⟨t, ht⟩ :=
            parseStringBody_escape kv.1.data
              (':' :: ' ' :: ((Json.serialize kv.2).data ++ '\x7d' :: rest))
          obtain ⟨v2, hv2⟩ := ihV kv.2 ('\x7d' :: rest) hv (by intro c hc; cases hc; decide)
          refine ⟨[(t, v2)], ?_⟩
          have hdata : (serializeFields [kv]).data ++ '\x7d' :: rest =
              '"' :: (jsonEscapeChars kv.1.data ++
                '"' :: (':' :: ' ' :: ((Json.serialize kv.2).data ++ '\x7d' :: rest))) := by
            rw [show serializeFields [kv] =
                "\"" ++ jsonEscape kv.1 ++ "\": " ++ Json.serialize kv.2 from by
              simp [serializeFields]]
            rw [str_data_append, str_data_append, str_data_append]
            simp [jsonEscape]
          rw [parseFields, hdata, skipWs_cons_false _ _ (by decide)]
          simp only []
          rw [if_pos trivial, ht]
          simp only []
          rw [skipWs_cons_false _ _ (by decide)]
          simp only []
          rw [if_pos trivial, parseValue_cons_ws fuel ' ' _ (by decide), hv2]
          simp only []
          rw [skipWs_cons_false _ _ (by decide)]
          simp only []
          rw [if_neg (by decide), if_pos trivial]
        | cons kv2 kvs3 =>
          have hv : jsize kv.2 ≤ fuel := by
            rw [show jsizeFields (kv :: kv2 :: kvs3) =
                1 + jsize kv.2 + jsizeFields (kv2 :: kvs3) from by simp [jsizeFields]] at hsz
            omega
          have hrest2 : jsizeFields (kv2 :: kvs3) ≤ fuel := by
            rw [show jsizeFields (kv :: kv2 :: kvs3) =
                1 + jsize kv.2 + jsizeFields (kv2 :: kvs3) from by simp [jsizeFields]] at hsz
            omega
          obtain ⟨t, ht⟩ :=
            parseStringBody_escape kv.1.data
              (':' :: ' ' :: ((Json.serialize kv.2).data ++
                (',' :: ' ' :: ((serializeFields (kv2 :: kvs3)).data ++ '\x7d' :: rest))))
          obtain ⟨v2, hv2⟩ := ihV kv.2
            (',' :: ' ' :: ((serializeFields (kv2 :: kvs3)).data ++ '\x7d' :: rest)) hv
            (by intro c hc; cases hc; decide)
          obtain ⟨ps, hps⟩ := ihF (kv2 :: kvs3) rest (by simp) hrest2
          refine ⟨(t, v2) :: ps, ?_⟩
          have hdata : (serializeFields (kv :: kv2 :: kvs3)).data ++ '\x7d' :: rest =
              '"' :: (jsonEscapeChars kv.1.data ++
                '"' :: (':' :: ' ' :: ((Json.serialize kv.2).data ++
                  (',' :: ' ' :: ((serializeFields (kv2 :: kvs3)).data ++
                    '\x7d' :: rest))))) := by
            rw [show serializeFields (kv :: kv2 :: kvs3) =
                "\"" ++ jsonEscape kv.1 ++ "\": " ++ Json.serialize kv.2 ++ ", " ++
                  serializeFields (kv2 :: kvs3) from by simp [serializeFields]]
            rw [str_data_append, str_data_append, str_data_append, str_data_append,
              str_data_append]
            simp [jsonEscape]
          rw [parseFields, hdata, skipWs_cons_false _ _ (by decide)]
          simp only []
          rw [if_pos trivial, ht]
          simp only []
          rw [skipWs_cons_false _ _ (by decide)]
          simp only []
          rw [if_pos trivial, parseValue_cons_ws fuel ' ' _ (by decide), hv2]
          simp only []
          rw [skipWs_cons_false _ _ (by decide)]
          simp only []
          rw [if_pos trivial, parseFields_cons_ws fuel ' ' _ (by decide), hps]
          rfl

theorem jsize_le_len_main : ∀ n : Nat,
    (∀ j : Json, jsize j ≤ n → jsize j ≤ (Json.serialize j).data.length + 1) ∧
    (∀ xs : List Json, jsizeList xs ≤ n →
      jsizeList xs ≤ (serializeItems xs).data.length + 2) ∧
    (∀ kvs : List (String × Json), jsizeFields kvs ≤ n →
      jsizeFields kvs ≤ (serializeFields kvs).data.length + 2) := by
  intro n
  induction n with
  | zero =>
    refine ⟨?_, ?_, ?_⟩
    · intro j hj
      exfalso
      cases j <;> simp [jsize] at hj
    · intro xs hx
      cases xs with
      | nil => simp [jsizeList]
      | cons a t => exfalso; simp [jsizeList] at hx
    · intro kvs hk
      cases kvs with
      | nil => simp [jsizeFields]
      | cons a t => exfalso; simp [jsizeFields] at hk
  | succ n ih =>
    obtain ⟨ihV, ihI, ihF⟩ := ih
    refine ⟨?_, ?_, ?_⟩
    · intro j hj
      cases j with
      | null => rw [show jsize Json.null = 1 from by simp [jsize]]; omega
      | bool b => rw [show jsize (Json.bool b) = 1 from by simp [jsize]]; omega
      | num n2 => rw [show jsize (Json.num n2) = 1 from by simp [jsize]]; omega
      | str s => rw [show jsize (Json.str s) = 1 from by simp [jsize]]; omega
      | arr xs =>
        have h1 : jsizeList xs ≤ n := by
          rw [show jsize (Json.arr xs) = 1 + jsizeList xs from by simp [jsize]] at hj
          omega
        have h2 := ihI xs h1
        have hlen : (Json.serialize (Json.arr xs)).data.length =
            (serializeItems xs).data.length + 2 := by
          rw [show Json.serialize (Json.arr xs) = "[" ++ serializeItems xs ++ "]" from by
            simp [Json.serialize]]
          rw [str_data_append, str_data_append]
          simp
        rw [show jsize (Json.arr xs) = 1 + jsizeList xs from by simp [jsize], hlen]
        omega
      | obj kvs =>
        have h1 : jsizeFields kvs ≤ n := by
          rw [show jsize (Json.obj kvs) = 1 + jsizeFields kvs from by simp [jsize]] at hj
          omega
        have h2 := ihF kvs h1
        have hlen : (Json.serialize (Json.obj kvs)).data.length =
            (serializeFields kvs).data.length + 2 := by
          rw [show Json.serialize (Json.obj kvs) = "\x7b" ++ serializeFields kvs ++ "\x7d"
            from by simp [Json.serialize]]
          rw [str_data_append, str_data_append]
          simp
        rw [show jsize (Json.obj kvs) = 1 + jsizeFields kvs from by simp [jsize], hlen]
        omega
    · intro xs hx
      cases xs with
      | nil => simp [jsizeList]
      | cons x t =>
        have hx1 : jsize x ≤ n := by
          rw [show jsizeList (x :: t) = 1 + jsize x + jsizeList t from by
            simp [jsizeList]] at hx
          omega
        have h2 := ihV x hx1
        cases t with
        | nil =>
          rw [show jsizeList [x] = 1 + jsize x + jsizeList [] from by simp [jsizeList],
            show jsizeList ([] : List Json) = 0 from by simp [jsizeList],
            show serializeItems [x] = Json.serialize x from by simp [serializeItems]]
          omega
        | cons y ys =>
          have hy : jsizeList (y :: ys) ≤ n := by
            rw [show jsizeList (x :: y :: ys) = 1 + jsize x + jsizeList (y :: ys) from by
              simp [jsizeList]] at hx
            omega
          have h3 := ihI (y :: ys) hy
          have hlen : (serializeItems (x :: y :: ys)).data.length =
              (Json.serialize x).data.length + 2 + (serializeItems (y :: ys)).data.length := by
            rw [show serializeItems (x :: y :: ys) =
                Json.serialize x ++ ", " ++ serializeItems (y :: ys) from by
              simp [serializeItems]]
            rw [str_data_append, str_data_append]
            simp
            omega
          rw [show jsizeList (x :: y :: ys) = 1 + jsize x + jsizeList (y :: ys) from by
            simp [jsizeList], hlen]
          omega
    · intro kvs hk
      cases kvs with
      | nil => simp [jsizeFields]
      | cons kv t =>
        have hk1 : jsize kv.2 ≤ n := by
          rw [show jsizeFields (kv :: t) = 1 + jsize kv.2 + jsizeFields t from by
            simp [jsizeFields]] at hk
          omega
        have h2 := ihV kv.2 hk1
        cases t with
        | nil =>
          have hlen : (serializeFields [kv]).data.length =
              (jsonEscape kv.1).data.length + 4 + (Json.serialize kv.2).data.length := by
            rw [show serializeFields [kv] =
                "\"" ++ jsonEscape kv.1 ++ "\": " ++ Json.serialize kv.2 from by
              simp [serializeFields]]
            rw [str_data_append, str_data_append, str_data_append]
            simp
            omega
          rw [show jsizeFields [kv] = 1 + jsize kv.2 + jsizeFields [] from by
            simp [jsizeFields],
            show jsizeFields ([] : List (String × Json)) = 0 from by simp [jsizeFields],
            hlen]
          omega
        | cons kv2 t2 =>
          have hy : jsizeFields (kv2 :: t2) ≤ n := by
            rw [show jsizeFields (kv :: kv2 :: t2) =
                1 + jsize kv.2 + jsizeFields (kv2 :: t2) from by simp [jsizeFields]] at hk
            omega
          have h3 := ihF (kv2 :: t2) hy
          have hlen : (serializeFields (kv :: kv2 :: t2)).data.length =
              (jsonEscape kv.1).data.length + 6 + (Json.serialize kv.2).data.length +
                (serializeFields (kv2 :: t2)).data.length := by
            rw [show serializeFields (kv :: kv2 :: t2) =
                "\"" ++ jsonEscape kv.1 ++ "\": " ++ Json.serialize kv.2 ++ ", " ++
                  serializeFields (kv2 :: t2) from by simp [serializeFields]]
            rw [str_data_append, str_data_append, str_data_append, str_data_append,
              str_data_append]
            simp
            omega
          rw [show jsizeFields (kv :: kv2 :: t2) =
              1 + jsize kv.2 + jsizeFields (kv2 :: t2) from by simp [jsizeFields], hlen]
          omega

/-- Every output of the `json.dumps` model is a well-formed serialized
JSON value: the parser accepts it in full. -/
theorem wellFormedJson_serialize (j : Json) : wellFormedJson (Json.serialize j) = true := by
  have hsz : jsize j ≤ (Json.serialize j).length + 1 := by
    have h := ((jsize_le_len_main (jsize j)).1 j (Nat.le_refl _))
    rw [show (Json.serialize j).length = (Json.serialize j).data.length from rfl]
    omega
  obtain ⟨j2, hj2⟩ := ((parse_serialize_main ((Json.serialize j).length + 1)).1 j [] hsz
    (by intro c hc; cases hc))
  unfold wellFormedJson parseJson
  rw [List.append_nil] at hj2
  rw [hj2]
  rfl

/-- Counterexample to C5 as stated: `LogEntry.__init__` stores a string
payload verbatim (the `isinstance(raw_data, str)` branch skips
`json.dumps`), so the entry built from the payload string `"hello"` has
`raw_data = "hello"`, which is not a well-formed serialized JSON value. -/
theorem logEntry_string_payload_not_json :
    (mkLogEntry "svc" "p" "test" (Json.str "hello") "info" none 0).rawData = "hello" ∧
    wellFormedJson "hello" = false := by
  constructor
  · rfl
  · decide

/-- C5 (amended): for every payload that is not a string — dict, list, or
non-string scalar — the constructed entry's `raw_data` is `json.dumps` of
the payload and hence a well-formed serialized JSON value; a string
payload is stored verbatim, so its `raw_data` is well-formed only if the
input string already was (the counterexample shows it need not be); and
when no timestamp is supplied the entry's `timestamp` is the UTC now
observed at construction time. -/
theorem logEntry_rawData_invariant (source product eventType severity : String)
    (payload : Json) (ts : Option Nat) (now : Nat) :
    (match payload with
     | Json.str s =>
       (mkLogEntry source product eventType payload severity ts now).rawData = s
     | _ =>
       (mkLogEntry source product eventType payload severity ts now).rawData =
           Json.serialize payload ∧
         wellFormedJson
           ((mkLogEntry source product eventType payload severity ts now).rawData) =
           true) ∧
    (mkLogEntry source product eventType payload severity none now).timestamp = now := by
  constructor
  · cases payload with
    | str s => rfl
    | null => exact ⟨rfl, wellFormedJson_serialize _⟩
    | bool b => exact ⟨rfl, wellFormedJson_serialize _⟩
    | num n => exact ⟨rfl, wellFormedJson_serialize _⟩
    | arr xs => exact ⟨rfl, wellFormedJson_serialize _⟩
    | obj kvs => exact ⟨rfl, wellFormedJson_serialize _⟩
  · rfl

end LogIngest
